import Mathlib

/-!
Shallow embedding of the turn orchestration and event-streaming engine of
remote-codexapp: the `CodexMcpClient` agent-session adapter
(codexMcpClient.ts), the `CodexManager` turn runner and sessiond gateway,
the `SessiondClient` stream-reconciliation bridge (sessiondClient.ts), and
the per-conversation event stream buffers (sessiond and `MemoryStore`,
store.ts).  TypeScript records become structures, `Map`s become functions
into `Option`, event-handler callbacks become explicit output lists, and
wall-clock times are `Int` milliseconds.
-/

namespace RemoteCodex

/-! Agent session adapter: assistant-text deduplication (codexMcpClient.ts,
`codex/event` notification handler). -/

/-- One entry of a `raw_response_item` payload's `item.content` array: either
an `output_text` block with a `text` string, or anything else. -/
inductive ContentItem where
  | outputText (text : String)
  | otherItem
deriving DecidableEq

/-- The shapes of `codex/event` notification payloads (`params.msg`) that the
`CodexMcpClient` notification handler distinguishes: `agent_message_delta`,
`agent_message_content_delta`, a full `agent_message`, a `raw_response_item`
with a role and content array, and every other payload. -/
inductive CodexMsg where
  | agentMessageDelta (delta : String)
  | agentMessageContentDelta (delta : String)
  | agentMessage (message : String)
  | rawResponseItem (role : String) (content : List ContentItem)
  | otherMsg
deriving DecidableEq

/-- The canonical `CodexRunnerEvent` union restricted to what the
notification handler emits: `agent_message{message}` or `raw{msg}`. -/
inductive RunnerEvent where
  | agentMessage (message : String)
  | raw (msg : CodexMsg)
deriving DecidableEq

/-- First `output_text` content entry with a nonempty `text`, mirroring the
`for (const c of msg.item.content)` loop in the notification handler. -/
def firstOutputText : List ContentItem → Option String
  | [] => none
  | .outputText t :: rest => if t.length ≠ 0 then some t else firstOutputText rest
  | .otherItem :: rest => firstOutputText rest

/-- The `codex/event` notification handler's text-deduplication branches
(codexMcpClient.ts lines 91-133).  State is `sawAssistantTextInFlight`;
output is the list of canonical events emitted for this one message:
`agent_message_delta` always forwards and sets the flag;
`agent_message_content_delta` is silently discarded; a full `agent_message`
forwards only while the flag is unset (otherwise it falls through to the
`raw` passthrough); an assistant `raw_response_item` forwards its first
nonempty `output_text` only while the flag is unset; everything else is
passed through as `raw`. -/
def handleCodexEvent (saw : Bool) (msg : CodexMsg) : Bool × List RunnerEvent :=
  match msg with
  | .agentMessageDelta d => (true, [.agentMessage d])
  | .agentMessageContentDelta _ => (saw, [])
  | .agentMessage m =>
      if !saw then (true, [.agentMessage m]) else (saw, [.raw msg])
  | .rawResponseItem role content =>
      if !saw && role == "assistant" then
        match firstOutputText content with
        | some t => (true, [.agentMessage t])
        | none => (saw, [.raw msg])
      else (saw, [.raw msg])
  | .otherMsg => (saw, [.raw msg])

/-- Run the notification handler over a sequence of backend messages,
threading `sawAssistantTextInFlight` and concatenating the emitted events. -/
def processFrom (saw : Bool) : List CodexMsg → List RunnerEvent
  | [] => []
  | m :: rest =>
      (handleCodexEvent saw m).2 ++ processFrom (handleCodexEvent saw m).1 rest

/-- The adapter's canonical assistant text for a turn: the concatenation of
the `message` payloads of the emitted `agent_message` events. -/
def canonicalText : List RunnerEvent → String
  | [] => ""
  | .agentMessage m :: rest => m ++ canonicalText rest
  | .raw _ :: rest => canonicalText rest

/-- Concatenation of the primary `agent_message_delta` payloads of a turn. -/
def deltaConcat : List CodexMsg → String
  | [] => ""
  | .agentMessageDelta d :: rest => d ++ deltaConcat rest
  | _ :: rest => deltaConcat rest

/-- Whether a backend message is an `agent_message_delta`. -/
def isDelta : CodexMsg → Bool
  | .agentMessageDelta _ => true
  | _ => false

/-- Whether a backend message can emit assistant text through the fallback
channels: a full `agent_message`, or an assistant `raw_response_item` with a
nonempty `output_text` block. -/
def isFallbackText : CodexMsg → Bool
  | .agentMessage _ => true
  | .rawResponseItem role content => role == "assistant" && (firstOutputText content).isSome
  | _ => false

/-- Checks that no fallback-channel message occurs before the first
`agent_message_delta` of the sequence (the ordering real backends produce:
deltas stream first, a full message may follow). -/
def fallbackGuarded : Bool → List CodexMsg → Bool
  | _, [] => true
  | sawDelta, m :: rest =>
      if isFallbackText m && !sawDelta then false
      else fallbackGuarded (sawDelta || isDelta m) rest

/-- The assistant text the first fallback-channel message of a sequence
carries: a full `agent_message`'s text, or the first nonempty
`output_text` of an assistant `raw_response_item`. -/
def firstFallbackText : List CodexMsg → Option String
  | [] => none
  | .agentMessage m :: _ => some m
  | .rawResponseItem role content :: rest =>
      if role == "assistant" then
        match firstOutputText content with
        | some t => some t
        | none => firstFallbackText rest
      else firstFallbackText rest
  | .agentMessageDelta _ :: rest => firstFallbackText rest
  | .agentMessageContentDelta _ :: rest => firstFallbackText rest
  | .otherMsg :: rest => firstFallbackText rest

/-- Usage and rate-limit payloads are uninterpreted records for the caches;
only their presence matters to the claims. -/
structure ClientState where
  sessionId : Option String
  conversationId : Option String
  sawAssistantTextInFlight : Bool
  /-- Keys of the `pendingApprovals` map, in insertion order (the order
  `Map.values()` iterates). -/
  pendingApprovals : List String
  /-- Whether `activeClaudeProc` is a live child process. -/
  activeClaudeProc : Bool
  hasLastUsage : Bool
  hasLastRateLimits : Bool
deriving DecidableEq

/-- The synchronous prelude of `CodexMcpClient.startSession` (lines 268-270):
clears the usage/rate-limit caches and resets `sawAssistantTextInFlight`. -/
def startSessionPrelude (c : ClientState) : ClientState :=
  { c with hasLastUsage := false, hasLastRateLimits := false,
           sawAssistantTextInFlight := false }

/-- The synchronous prelude of `CodexMcpClient.continueSession` (lines
310-312): identical per-turn reset of the caches and the text flag. -/
def continueSessionPrelude (c : ClientState) : ClientState :=
  { c with hasLastUsage := false, hasLastRateLimits := false,
           sawAssistantTextInFlight := false }

/-- A turn interleaving in which the full `agent_message` arrives before the
deltas that carry the same text. -/
def fullBeforeDeltas : List CodexMsg :=
  [.agentMessage "Hello world", .agentMessageDelta "Hello",
   .agentMessageDelta " world"]

/-! Rate-limit window normalization (sessiondClient.ts lines 1105-1153). -/

/-- A JavaScript field value as far as `normalizeRateLimitWindow` inspects
it: missing (`undefined`), `null`, a finite number, or a string.  Numbers
are exact rationals; the JS doubles relevant to the claims (integers and
quotients such as `40/100*100`) are computed exactly by both.  The
`Number(value.trim())` string coercion of `normalizeNumeric` is not
modelled (no claim exercises string-typed numerics), so `str` values
normalize to `null`. -/
inductive JSVal where
  | undefined
  | null
  | num (q : ℚ)
  | str (s : String)
deriving DecidableEq

/-- JavaScript `a ?? b`: `b` when `a` is `undefined` or `null`. -/
def jsCoalesce (a b : JSVal) : JSVal :=
  match a with
  | .undefined => b
  | .null => b
  | _ => a

/-- `normalizeNumeric` (sessiondClient.ts lines 1045-1052) on the modelled
values: a finite number passes through, everything else is `null`. -/
def normalizeNumeric (v : JSVal) : Option ℚ :=
  match v with
  | .num q => some q
  | _ => none

/-- The raw rate-limit window record, with exactly the fields
`normalizeRateLimitWindow` reads for `used_percent`; absent fields default
to `undefined`. -/
structure RawRLWindow where
  used_percent : JSVal := .undefined
  usedPercent : JSVal := .undefined
  percent_used : JSVal := .undefined
  percentUsed : JSVal := .undefined
  remaining_percent : JSVal := .undefined
  remainingPercent : JSVal := .undefined
  percent_remaining : JSVal := .undefined
  percentRemaining : JSVal := .undefined
  left_percent : JSVal := .undefined
  leftPercent : JSVal := .undefined
  used : JSVal := .undefined
  usedAmount : JSVal := .undefined
  current : JSVal := .undefined
  total_used : JSVal := .undefined
  tokens_used : JSVal := .undefined
  usedTokens : JSVal := .undefined
  limit : JSVal := .undefined
  limitAmount : JSVal := .undefined
  max : JSVal := .undefined
  max_tokens : JSVal := .undefined
  capacity : JSVal := .undefined
  total_limit : JSVal := .undefined
  totalLimit : JSVal := .undefined
  limitTokens : JSVal := .undefined
  maxTokens : JSVal := .undefined
  capacity_tokens : JSVal := .undefined
  capacityTokens : JSVal := .undefined

/-- The `used_percent` component of `normalizeRateLimitWindow`
(sessiondClient.ts lines 1105-1153): prefer an explicit used-percent field;
else derive `100 - remaining_percent`; else derive `used / limit * 100`
clamped to `[0, 100]` when a positive limit is present; else the window is
rejected (`null`).  The `window_minutes` / `resets_at` components are
wall-clock derivations independent of `used_percent` and are not needed by
the claims. -/
def normalizeRateLimitWindowUsedPercent (raw : RawRLWindow) : Option ℚ :=
  let fromUsed := normalizeNumeric
    (jsCoalesce raw.used_percent (jsCoalesce raw.usedPercent
      (jsCoalesce raw.percent_used raw.percentUsed)))
  let fromRemaining : Option ℚ :=
    match normalizeNumeric
      (jsCoalesce raw.remaining_percent (jsCoalesce raw.remainingPercent
        (jsCoalesce raw.percent_remaining (jsCoalesce raw.percentRemaining
          (jsCoalesce raw.left_percent raw.leftPercent))))) with
    | some r => some (100 - r)
    | none => none
  let fromPair : Option ℚ :=
    match normalizeNumeric
        (jsCoalesce raw.used (jsCoalesce raw.usedAmount
          (jsCoalesce raw.current (jsCoalesce raw.total_used
            (jsCoalesce raw.tokens_used raw.usedTokens))))),
      normalizeNumeric
        (jsCoalesce raw.limit (jsCoalesce raw.limitAmount
          (jsCoalesce raw.max (jsCoalesce raw.max_tokens
            (jsCoalesce raw.capacity (jsCoalesce raw.total_limit
              (jsCoalesce raw.totalLimit (jsCoalesce raw.limitTokens
                (jsCoalesce raw.maxTokens (jsCoalesce raw.capacity_tokens
                  raw.capacityTokens)))))))))) with
    | some u, some l => if 0 < l then some (max 0 (min 100 (u / l * 100))) else none
    | _, _ => none
  match fromUsed with
  | some p => some p
  | none =>
      match fromRemaining with
      | some p => some p
      | none => fromPair

/-! Event stream buffer.  The sessiond gateway buffer (sessiondClient.ts
lines 2703-2787, `maxEvents = 4000`) and the web-server `MemoryStore`
buffer (store.ts lines 526-588, `maxEvents = 2000`; additionally fans out
to listeners) share the same id/trim logic, modelled once with the
capacity as a parameter. -/

/-- Stream status: `idle | running | done | error`. -/
inductive StreamStatus where
  | idle
  | running
  | done
  | error
deriving DecidableEq

/-- A stream event `{id, event, data, ts}`; the JSON payload `data` is an
uninterpreted string. -/
structure StreamEvent where
  id : Nat
  event : String
  data : String
  ts : Int
deriving DecidableEq

/-- Per-conversation stream state `{status, nextId, events, updatedAt}`
(the `MemoryStore` variant additionally holds listeners, see
`StoreStream`). -/
structure ChatStream where
  status : StreamStatus
  nextId : Nat
  events : List StreamEvent
  updatedAt : Int
deriving DecidableEq

/-- `chatKey(sessionId, chatId)`. -/
def chatKey (sessionId chatId : String) : String := sessionId ++ ":" ++ chatId

/-- The stream `ensureStream` creates on first touch. -/
def freshChatStream (now : Int) : ChatStream :=
  { status := .idle, nextId := 1, events := [], updatedAt := now }

/-- `maxEvents` in the sessiond gateway's `appendStreamEvent`. -/
def sessiondMaxEvents : Nat := 4000

/-- `maxEvents` in `MemoryStore.appendStreamEvent`. -/
def memoryStoreMaxEvents : Nat := 2000

/-- Status update performed by `appendStreamEvent`: `done` and
`turn_error` (and the legacy `error` name) latch the terminal status. -/
def statusAfterAppend (st : StreamStatus) (event : String) : StreamStatus :=
  let st1 := if event = "done" then StreamStatus.done else st
  if event = "turn_error" ∨ event = "error" then StreamStatus.error else st1

/-- `appendStreamEvent`: assigns `id := nextId` (post-incrementing the
counter), pushes the event, latches terminal status, and trims the oldest
prefix (`events.splice(0, length - maxEvents)`) once over capacity. -/
def appendStreamEvent (maxEvents : Nat) (s : ChatStream) (event : String)
    (data : String) (now : Int) : ChatStream × StreamEvent :=
  let e : StreamEvent := { id := s.nextId, event := event, data := data, ts := now }
  let events := s.events ++ [e]
  let events :=
    if maxEvents < events.length then events.drop (events.length - maxEvents)
    else events
  ({ status := statusAfterAppend s.status event, nextId := s.nextId + 1,
     events := events, updatedAt := now }, e)

/-- `listStreamEventsSince`: the retained events with `e.id > afterId`. -/
def listStreamEventsSince (s : ChatStream) (afterId : Nat) : List StreamEvent :=
  s.events.filter (fun e => afterId < e.id)

/-- `resetStream`: status `running`, numbering restarted at 1, events
cleared. -/
def resetStream (s : ChatStream) (now : Int) : ChatStream :=
  { s with status := .running, nextId := 1, events := [], updatedAt := now }

/-- `getStreamRuntime`: status, `lastEventId = max(0, nextId - 1)` (the
`max` is Nat truncation here) and `updatedAt`. -/
def getStreamRuntime (s : ChatStream) : StreamStatus × Nat × Int :=
  (s.status, s.nextId - 1, s.updatedAt)

/-- One `appendStreamEvent` call's arguments. -/
structure AppendOp where
  event : String
  data : String
  ts : Int

/-- A sequence of appends against one buffer. -/
def applyAppends (maxEvents : Nat) (s : ChatStream) : List AppendOp → ChatStream
  | [] => s
  | op :: rest =>
      applyAppends maxEvents (appendStreamEvent maxEvents s op.event op.data op.ts).1 rest

/-! The `MemoryStore` stream-buffer variant (store.ts): same core stream,
plus a listener set that `appendStreamEvent` notifies synchronously.
Listeners are identified by `Nat` tokens standing for the registered
callback functions. -/

/-- `MemoryStore`'s per-chat stream: the shared core plus the listener
set (kept in insertion order, as a JS `Set` iterates). -/
structure StoreStream where
  core : ChatStream
  listeners : List Nat
deriving DecidableEq

/-- The stream `MemoryStore.ensureStream` creates on first touch. -/
def freshStoreStream (now : Int) : StoreStream :=
  { core := freshChatStream now, listeners := [] }

/-- The `streamsByChatKey` map of a `MemoryStore`. -/
structure MemoryStoreState where
  streamsByChatKey : String → Option StoreStream

/-- `Map.set` on `streamsByChatKey`. -/
def MemoryStore.setStream (st : MemoryStoreState) (key : String) (s : StoreStream) :
    MemoryStoreState :=
  { streamsByChatKey := fun k => if k = key then some s else st.streamsByChatKey k }

/-- `MemoryStore.ensureStream`: return the existing stream for the chat
key, or create and store a fresh one. -/
def MemoryStore.ensureStream (st : MemoryStoreState) (sessionId chatId : String)
    (now : Int) : StoreStream × MemoryStoreState :=
  let key := chatKey sessionId chatId
  match st.streamsByChatKey key with
  | some s => (s, st)
  | none =>
      let s := freshStoreStream now
      (s, MemoryStore.setStream st key s)

/-- `MemoryStore.resetStream`: status `running`, events cleared, numbering
restarted at 1, `updatedAt` refreshed — listeners kept. -/
def MemoryStore.resetStream (st : MemoryStoreState) (sessionId chatId : String)
    (now : Int) : MemoryStoreState :=
  let key := chatKey sessionId chatId
  let es := MemoryStore.ensureStream st sessionId chatId now
  MemoryStore.setStream es.2 key
    { core := { status := .running, nextId := 1, events := [], updatedAt := now },
      listeners := es.1.listeners }

/-- `MemoryStore.appendStreamEvent`: append through the shared core logic
with `maxEvents = 2000`, then notify every listener synchronously; the
third component is the fan-out `(listener, event)` notification list. -/
def MemoryStore.appendStreamEvent (st : MemoryStoreState) (sessionId chatId : String)
    (event : String) (data : String) (now : Int) :
    MemoryStoreState × StreamEvent × List (Nat × StreamEvent) :=
  let key := chatKey sessionId chatId
  let es := MemoryStore.ensureStream st sessionId chatId now
  let ce := RemoteCodex.appendStreamEvent memoryStoreMaxEvents es.1.core event data now
  (MemoryStore.setStream es.2 key { core := ce.1, listeners := es.1.listeners },
   ce.2, es.1.listeners.map (fun l => (l, ce.2)))

/-- `MemoryStore.subscribeStream`: add the listener to the chat's stream
(a JS `Set.add`: no duplicates). -/
def MemoryStore.subscribeStream (st : MemoryStoreState) (sessionId chatId : String)
    (l : Nat) (now : Int) : MemoryStoreState :=
  let key := chatKey sessionId chatId
  let es := MemoryStore.ensureStream st sessionId chatId now
  MemoryStore.setStream es.2 key
    { es.1 with
      listeners := if l ∈ es.1.listeners then es.1.listeners else es.1.listeners ++ [l] }

/-- A sequence of `MemoryStore.appendStreamEvent` calls on one chat,
collecting each appended event with its notification fan-out. -/
def MemoryStore.applyAppends (st : MemoryStoreState) (sessionId chatId : String) :
    List AppendOp → MemoryStoreState × List (StreamEvent × List (Nat × StreamEvent))
  | [] => (st, [])
  | op :: rest =>
      let r := MemoryStore.appendStreamEvent st sessionId chatId op.event op.data op.ts
      let rr := MemoryStore.applyAppends r.1 sessionId chatId rest
      (rr.1, (r.2.1, r.2.2) :: rr.2)

/-! Agent session adapter: approval correlation, decision mapping and the
abort path (codexMcpClient.ts). -/

/-- Approval decisions (`CodexApprovalDecision`). -/
inductive ApprovalDecision where
  | approved
  | approvedForSession
  | denied
  | abort
deriving DecidableEq

/-- MCP elicitation response actions. -/
inductive ElicitAction where
  | accept
  | decline
  | cancel
deriving DecidableEq

/-- `toElicitResponse` (lines 253-264): `approved` and
`approved_for_session` accept, `denied` declines, and the `default` switch
arm — reachable by `abort`, the only remaining decision — cancels. -/
def toElicitResponse (decision : ApprovalDecision) : ElicitAction :=
  match decision with
  | .approved => .accept
  | .approvedForSession => .accept
  | .denied => .decline
  | .abort => .cancel

/-- `nextApprovalId` (lines 149-152): a minted correlation id,
`Date.now() + "-" + approvalSeq` after incrementing the counter — always a
nonempty string. -/
def nextApprovalId (nowMs approvalSeq : Nat) : String :=
  toString nowMs ++ "-" ++ toString approvalSeq

/-- The elicitation handler's id choice (lines 173-175):
`approvalId || this.nextApprovalId()` — the backend's correlation id when
it is truthy (nonempty), else a minted id. -/
def chooseApprovalId (approvalId : String) (nowMs approvalSeq : Nat) : String :=
  if approvalId = "" then nextApprovalId nowMs approvalSeq else approvalId

/-- The elicitation handler's registration (lines 184-187): store the
chosen id in the pending map (`Map.set`: existing keys keep their slot). -/
def registerApproval (c : ClientState) (approvalId : String)
    (nowMs approvalSeq : Nat) : ClientState × String :=
  let id := chooseApprovalId approvalId nowMs approvalSeq
  ({ c with pendingApprovals :=
      if id ∈ c.pendingApprovals then c.pendingApprovals
      else c.pendingApprovals ++ [id] },
   id)

/-- `CodexMcpClient.approve(id, decision)` (lines 232-251): resolve by
exact id; if no resolver was found and exactly one approval is pending,
fall back to that single entry — but only when its key is truthy
(`if (fallback)`, a nonempty string); with no resolver report `false`
without change.  The resolved entry is deleted only when the resolved key
is itself truthy (`if (pendingApprovalKey)`), so resolving the
empty-string key would leave the consumed entry in the map.  The result
carries success, the new client state, and the resolved key paired with
the elicitation action the suspended handler will return for the
decision. -/
def approve (c : ClientState) (id : String) (decision : ApprovalDecision) :
    Bool × ClientState × Option (String × ElicitAction) :=
  let key? : Option String :=
    if id ∈ c.pendingApprovals then some id
    else if c.pendingApprovals.length = 1 then
      match c.pendingApprovals.head? with
      | some fallback => if fallback = "" then none else some fallback
      | none => none
    else none
  match key? with
  | none => (false, c, none)
  | some k =>
      (true,
       { c with pendingApprovals :=
           if k = "" then c.pendingApprovals else c.pendingApprovals.erase k },
       some (k, toElicitResponse decision))

/-- Externally observable actions of the abort path, listed in emission
order. -/
inductive AbortAction where
  | resolveApproval (id : String) (decision : ApprovalDecision)
  | sigtermClaude
  | abortControllerAbort
deriving DecidableEq

/-- Whether an action resolves a pending approval. -/
def AbortAction.isResolve : AbortAction → Bool
  | .resolveApproval _ _ => true
  | _ => false

/-- Whether an action signals process teardown (SIGTERM on the claude
child, or firing the AbortController that cancels the in-flight call). -/
def AbortAction.isTeardown : AbortAction → Bool
  | .resolveApproval _ _ => false
  | _ => true

/-- `abortPendingApprovals` (lines 212-220): snapshot the pending
resolvers, clear the map, resolve each with `abort`, then stop the active
claude child process if any (SIGTERM, escalating to SIGKILL after the
grace window).  Returns the new state, the resolver count, and the
actions in order. -/
def abortPendingApprovals (c : ClientState) : ClientState × Nat × List AbortAction :=
  ({ c with pendingApprovals := [] }, c.pendingApprovals.length,
   c.pendingApprovals.map (fun id => AbortAction.resolveApproval id .abort)
     ++ (if c.activeClaudeProc then [AbortAction.sigtermClaude] else []))

/-- `resetSessionState` (lines 222-230): unblock any approval wait, then
drop the session identifiers, the per-turn text flag and the caches. -/
def resetSessionState (c : ClientState) : ClientState × List AbortAction :=
  let r := abortPendingApprovals c
  ({ r.1 with sessionId := none, conversationId := none,
              sawAssistantTextInFlight := false, hasLastUsage := false,
              hasLastRateLimits := false }, r.2.2)

/-! Turn runner (`CodexManager`, codexManager.ts) and the sessiond
gateway's start endpoint. -/

/-- `sandbox` values. -/
inductive SandboxMode where
  | readOnly
  | workspaceWrite
  | dangerFullAccess
deriving DecidableEq

/-- `approvalPolicy` values. -/
inductive ApprovalPolicy where
  | untrusted
  | onFailure
  | onRequest
  | never
deriving DecidableEq

/-- `reasoningEffort` values. -/
inductive ReasoningEffort where
  | low
  | medium
  | high
  | xhigh
deriving DecidableEq

/-- Turn execution config. -/
structure TurnConfig where
  cwd : Option String
  sandbox : Option SandboxMode
  approvalPolicy : Option ApprovalPolicy
  model : Option String
  reasoningEffort : Option ReasoningEffort
deriving DecidableEq

/-- The config fingerprint.  `sessionConfigKey` in the source is
`JSON.stringify({cwd, sandbox, approvalPolicy, model, reasoningEffort})`
with `?? null` defaults in fixed key order; the stringify is injective on
this shape, so the fingerprint is modelled as the record of the five
fields. -/
structure ConfigKey where
  cwd : Option String
  sandbox : Option SandboxMode
  approvalPolicy : Option ApprovalPolicy
  model : Option String
  reasoningEffort : Option ReasoningEffort
deriving DecidableEq

/-- `sessionConfigKey(config)` (codexManager.ts lines 3030-3044). -/
def sessionConfigKey (config : TurnConfig) : ConfigKey :=
  { cwd := config.cwd, sandbox := config.sandbox,
    approvalPolicy := config.approvalPolicy, model := config.model,
    reasoningEffort := config.reasoningEffort }

/-- `RunnerState`: one per chat key. -/
structure RunnerState where
  client : ClientState
  busy : Bool
  /-- Whether `abort` holds a live `AbortController`. -/
  hasAbort : Bool
  sessionConfigKey : Option ConfigKey
  instanceId : String
  codexHome : Option String
deriving DecidableEq

/-- `CodexInstanceBinding`. -/
structure CodexInstanceBinding where
  instanceId : String
  codexHome : Option String
deriving DecidableEq

/-- A freshly constructed `CodexMcpClient`'s observable state. -/
def freshClientState : ClientState :=
  { sessionId := none, conversationId := none, sawAssistantTextInFlight := false,
    pendingApprovals := [], activeClaudeProc := false, hasLastUsage := false,
    hasLastRateLimits := false }

/-- A freshly created runner. -/
def freshRunnerState (instanceId : String) (codexHome : Option String) : RunnerState :=
  { client := freshClientState, busy := false, hasAbort := false,
    sessionConfigKey := none, instanceId := instanceId, codexHome := codexHome }

/-- The `runners` map of a `CodexManager`. -/
structure CodexManagerState where
  runners : String → Option RunnerState

/-- `Map.set` / `Map.delete` on the runner map. -/
def setRunner (m : CodexManagerState) (key : String) (r : Option RunnerState) :
    CodexManagerState :=
  { runners := fun k => if k = key then r else m.runners k }

/-- `binding?.instanceId || 'default'` (the empty string is falsy). -/
def resolveInstanceId (binding : Option CodexInstanceBinding) : String :=
  match binding with
  | some b => if b.instanceId = "" then "default" else b.instanceId
  | none => "default"

/-- `binding?.codexHome?.trim() || undefined`. -/
def resolveCodexHome (binding : Option CodexInstanceBinding) : Option String :=
  match binding with
  | some b =>
      match b.codexHome with
      | some h => if h.trim = "" then none else some h.trim
      | none => none
  | none => none

/-- `CodexManager.get` (lines 3059-3083): resolve the per-chat runner,
recreating it when the requested instance binding differs — unless the
existing runner is busy, in which case the call throws `chat_busy` without
touching the map. -/
def managerGet (m : CodexManagerState) (sessionId chatId : String)
    (binding : Option CodexInstanceBinding) :
    CodexManagerState × Except String RunnerState :=
  let key := chatKey sessionId chatId
  let nextInstanceId := resolveInstanceId binding
  let nextCodexHome : Option String := resolveCodexHome binding
  match m.runners key with
  | some r =>
      if r.instanceId ≠ nextInstanceId ∨ r.codexHome ≠ nextCodexHome then
        if r.busy then (m, .error "chat_busy")
        else
          let rNew := freshRunnerState nextInstanceId nextCodexHome
          (setRunner m key (some rNew), .ok rNew)
      else (m, .ok r)
  | none =>
      let rNew := freshRunnerState nextInstanceId nextCodexHome
      (setRunner m key (some rNew), .ok rNew)

/-- `CodexManager.isBusy`. -/
def isBusy (m : CodexManagerState) (sessionId chatId : String) : Bool :=
  match m.runners (chatKey sessionId chatId) with
  | some r => r.busy
  | none => false

/-- The entry guard of `CodexManager.runTurn` (lines 3132-3135): resolve
the runner, throw `chat_busy` if it is already busy, otherwise mark it
busy with a fresh `AbortController`. -/
def runTurnEnter (m : CodexManagerState) (sessionId chatId : String)
    (binding : Option CodexInstanceBinding) :
    CodexManagerState × Except String RunnerState :=
  let g := managerGet m sessionId chatId binding
  match g.2 with
  | .error e => (g.1, .error e)
  | .ok r =>
      if r.busy then (g.1, .error "chat_busy")
      else
        let r' := { r with busy := true, hasAbort := true }
        (setRunner g.1 (chatKey sessionId chatId) (some r'), .ok r')

/-- `CodexManager.abort` (lines 3101-3109): fail with `not_running` unless
a busy runner exists; otherwise resolve every pending approval to `abort`
(which also SIGTERMs an active claude child) and only then fire the
AbortController.  The returned action list is in emission order. -/
def managerAbort (m : CodexManagerState) (sessionId chatId : String) :
    CodexManagerState × Except String Unit × List AbortAction :=
  let key := chatKey sessionId chatId
  match m.runners key with
  | none => (m, .error "not_running", [])
  | some r =>
      if !r.busy then (m, .error "not_running", [])
      else
        let ap := abortPendingApprovals r.client
        (setRunner m key (some { r with client := ap.1 }),
         .ok (), ap.2.2 ++ (if r.hasAbort then [AbortAction.abortControllerAbort] else []))

/-- A concrete busy runner with two pending approvals and an active claude
child process. -/
def busyRunnerFixture : RunnerState :=
  { freshRunnerState "default" none with
    busy := true, hasAbort := true,
    client := { freshClientState with
                pendingApprovals := ["a1", "a2"],
                activeClaudeProc := true } }

/-- A manager owning `busyRunnerFixture` under the chat key `"s:c"`. -/
def busyManagerFixture : CodexManagerState :=
  ⟨fun k => if k = "s:c" then some busyRunnerFixture else none⟩

/-- Which underlying adapter call a turn makes. -/
inductive SessionCall where
  | startCall
  | continueCall
deriving DecidableEq

/-- The session-reset / start-vs-continue decision of `CodexManager.runTurn`
(lines 3180-3226): if a session is live and the recorded fingerprint
differs from the requested one, emit a `session_reset` progress event and
reset the session state; then start a new session — recording the new
fingerprint, as the source does right after `startSession` returns — when
none is live, else continue the existing one.  Returns the emitted
progress stages in order, the adapter call made, and the runner
afterwards. -/
def sessionDecision (r : RunnerState) (config : TurnConfig) :
    List String × SessionCall × RunnerState :=
  let nextConfigKey := sessionConfigKey config
  let reset :=
    if r.client.sessionId.isSome ∧ r.sessionConfigKey ≠ some nextConfigKey then
      (["session_reset"], { r with client := (resetSessionState r.client).1 })
    else (([] : List String), r)
  if reset.2.client.sessionId.isSome = false then
    (reset.1 ++ ["start_session"], SessionCall.startCall,
     { reset.2 with sessionConfigKey := some nextConfigKey })
  else
    (reset.1 ++ ["continue_session"], SessionCall.continueCall, reset.2)

/-- A `POST /v1/chats/start` request after schema validation. -/
structure StartRequest where
  sessionId : String
  chatId : String
  prompt : String
  assistantMessageId : Option String
  binding : Option CodexInstanceBinding
  config : TurnConfig

/-- The start endpoint's response. -/
inductive StartResponse where
  | conflict (error : String)
  | accepted
deriving DecidableEq

/-- The sessiond gateway's state: the stream buffers plus the
`CodexManager`. -/
structure GatewayState where
  streamsByChatKey : String → Option ChatStream
  manager : CodexManagerState

/-- The synchronous part of `POST /v1/chats/start` (sessiondClient.ts
lines 2858-2930): respond 409 `chat_busy` on a busy conversation, leaving
every piece of state untouched; otherwise reset the stream buffer, append
the `start` event, and schedule the background turn (whose completion
tail is `finishTurnEvents`). -/
def handleChatsStart (st : GatewayState) (req : StartRequest) (now : Int) :
    StartResponse × GatewayState :=
  if isBusy st.manager req.sessionId req.chatId then
    (.conflict "chat_busy", st)
  else
    let key := chatKey req.sessionId req.chatId
    let s0 := (st.streamsByChatKey key).getD (freshChatStream now)
    let s1 := RemoteCodex.resetStream s0 now
    let s2 := (appendStreamEvent sessiondMaxEvents s1 "start" "start_payload" now).1
    (.accepted,
     { st with streamsByChatKey := fun k => if k = key then some s2 else st.streamsByChatKey k })

/-- What a finished `runTurn` reported. -/
structure RunTurnResult where
  hasUsage : Bool
  hasRateLimits : Bool
deriving DecidableEq

/-- The completion tail of the `POST /v1/chats/start` background task
(lines 2921-2927): usage / rate-limit snapshots when present, then exactly
one terminal event — `done` on success, `turn_error` on failure. -/
def finishTurnEvents (outcome : Except String RunTurnResult) : List String :=
  match outcome with
  | .ok r =>
      (if r.hasUsage then ["codex_usage"] else [])
        ++ (if r.hasRateLimits then ["codex_rate_limits"] else []) ++ ["done"]
  | .error _ => ["turn_error"]

/-- Terminal stream event kinds. -/
def isTerminalEvent (event : String) : Bool :=
  event = "done" || event = "turn_error"

/-! Stream reconciliation bridge (`SessiondClient`). -/

/-- The cursor-reconciliation step shared by `syncStreamFromSessiond`
(lines 2147-2151) and the `SessiondClient.runTurn` poll loop (lines
311-316): a known cursor beyond the remote's reported last event id means
the remote buffer was reset by a newer turn; restart from cursor 0.  The
Boolean records the `resetKnownCursor` call (the `knownCursorByChat`
delete, after which `getKnownCursor` reads 0). -/
def syncCursorStep (known : Nat) (remoteLastEventId : Nat) : Nat × Bool :=
  if known > remoteLastEventId then (0, true) else (known, false)

/-! Heartbeat machinery of `CodexManager.runTurn` (lines 3139-3169). -/

/-- Kinds of canonical runner events as the heartbeat wrapper classifies
them: only `raw` events whose payload is a `progress` message do not count
as forward progress. -/
inductive EmittedKind where
  | agentMessage
  | approvalRequest
  | rawProgress
  | rawOther
deriving DecidableEq

/-- `!(e.type === 'raw' && isProgressMsg(e.msg))`. -/
def countsAsNonProgress (k : EmittedKind) : Bool :=
  match k with
  | .rawProgress => false
  | _ => true

/-- Heartbeat timer state: `lastNonProgressAt` and `lastHeartbeatAt`. -/
structure HbState where
  lastNonProgressAt : Int
  lastHeartbeatAt : Int
deriving DecidableEq

/-- A synthesized heartbeat: its emission time, the quiet interval it
reports (the message string rounds this to whole seconds), whether an
approval is currently pending, and elapsed ms since turn start. -/
structure Heartbeat where
  time : Int
  quietMs : Int
  pendingApproval : Bool
  sinceMs : Int
deriving DecidableEq

/-- `heartbeatEveryMs`. -/
def heartbeatEveryMs : Int := 10000

/-- One timer tick (the `setInterval(..., 1000)` body): emit only when at
least `heartbeatEveryMs` have passed since the last non-progress event and
since the last heartbeat. -/
def hbTick (st : HbState) (now : Int) (pendingApproval : Bool) (turnStartAt : Int) :
    HbState × Option Heartbeat :=
  if now - st.lastNonProgressAt < heartbeatEveryMs then (st, none)
  else if now - st.lastHeartbeatAt < heartbeatEveryMs then (st, none)
  else
    ({ st with lastHeartbeatAt := now },
     some { time := now, quietMs := now - st.lastNonProgressAt,
            pendingApproval := pendingApproval, sinceMs := max 0 (now - turnStartAt) })

/-- The `emit` wrapper (lines 3145-3150): every event that is not a raw
progress message refreshes `lastNonProgressAt`. -/
def hbObserve (st : HbState) (now : Int) (k : EmittedKind) : HbState :=
  if countsAsNonProgress k then { st with lastNonProgressAt := now } else st

/-- A timed input to the heartbeat machinery: a timer tick (carrying
whether an approval is pending at that instant, read from
`hasPendingApprovals`) or an emitted runner event. -/
inductive HbInput where
  | tick (t : Int) (pendingApproval : Bool)
  | emitted (t : Int) (k : EmittedKind)
deriving DecidableEq

/-- The instant an input occurs. -/
def HbInput.time : HbInput → Int
  | .tick t _ => t
  | .emitted t _ => t

/-- Whether an input is an emitted event counting as forward progress. -/
def HbInput.isNonProgressEvent : HbInput → Bool
  | .emitted _ k => countsAsNonProgress k
  | .tick _ _ => false

/-- Process one input. -/
def hbStep (turnStartAt : Int) (st : HbState) : HbInput → HbState × List Heartbeat
  | .tick t p =>
      let r := hbTick st t p turnStartAt
      (r.1, r.2.toList)
  | .emitted t k => (hbObserve st t k, [])

/-- All heartbeats emitted while folding the inputs through the timer
state. -/
def hbRun (turnStartAt : Int) (st : HbState) : List HbInput → List Heartbeat
  | [] => []
  | i :: rest =>
      (hbStep turnStartAt st i).2 ++ hbRun turnStartAt (hbStep turnStartAt st i).1 rest

/-- Heartbeat state as `runTurn` initializes it: `lastNonProgressAt` is the
setup instant (the turn start) and `lastHeartbeatAt` is epoch 0. -/
def initHbState (turnStartAt : Int) : HbState :=
  { lastNonProgressAt := turnStartAt, lastHeartbeatAt := 0 }

/-- The heartbeats of one turn. -/
def heartbeats (turnStartAt : Int) (inputs : List HbInput) : List Heartbeat :=
  hbRun turnStartAt (initHbState turnStartAt) inputs

end RemoteCodex

namespace RemoteCodex

/-! Theorems for claims C1 and C6. -/

/-- Helper: under `fallbackGuarded`, the handler emits exactly the delta
concatenation, starting from a text flag equal to the guard's
delta-observed flag. -/
theorem canonicalText_processFrom_guarded (msgs : List CodexMsg) :
    ∀ saw : Bool, fallbackGuarded saw msgs = true →
      canonicalText (processFrom saw msgs) = deltaConcat msgs := by
  induction msgs with
  | nil => intro saw _; rfl
  | cons m rest ih =>
      intro saw hg
      cases m with
      | agentMessageDelta d =>
          have hrest : fallbackGuarded true rest = true := by
            simpa [fallbackGuarded, isFallbackText, isDelta] using hg
          simp [processFrom, handleCodexEvent, canonicalText, deltaConcat,
            ih true hrest]
      | agentMessageContentDelta d =>
          have hrest : fallbackGuarded saw rest = true := by
            simpa [fallbackGuarded, isFallbackText, isDelta] using hg
          simp [processFrom, handleCodexEvent, canonicalText, deltaConcat,
            ih saw hrest]
      | agentMessage msg =>
          have hsaw : saw = true := by
            cases saw
            · simp [fallbackGuarded, isFallbackText] at hg
            · rfl
          subst hsaw
          have hrest : fallbackGuarded true rest = true := by
            simpa [fallbackGuarded, isFallbackText, isDelta] using hg
          simp [processFrom, handleCodexEvent, canonicalText, deltaConcat,
            ih true hrest]
      | rawResponseItem role content =>
          cases hfb : isFallbackText (CodexMsg.rawResponseItem role content) with
          | true =>
              have hsaw : saw = true := by
                cases saw
                · simp [fallbackGuarded, hfb] at hg
                · rfl
              subst hsaw
              have hrest : fallbackGuarded true rest = true := by
                simpa [fallbackGuarded, hfb, isDelta] using hg
              simp [processFrom, handleCodexEvent, canonicalText, deltaConcat,
                ih true hrest]
          | false =>
              have hrest : fallbackGuarded saw rest = true := by
                simpa [fallbackGuarded, hfb, isDelta] using hg
              have hres := ih saw hrest
              cases hro : (role == "assistant") with
              | false =>
                  simp [processFrom, handleCodexEvent, hro, canonicalText,
                    deltaConcat, hres]
              | true =>
                  cases hfo : firstOutputText content with
                  | some t => simp [isFallbackText, hro, hfo] at hfb
                  | none =>
                      cases saw <;>
                        simp [processFrom, handleCodexEvent, hro, hfo,
                          canonicalText, deltaConcat, hres]
      | otherMsg =>
          have hrest : fallbackGuarded saw rest = true := by
            simpa [fallbackGuarded, isFallbackText, isDelta] using hg
          simp [processFrom, handleCodexEvent, canonicalText, deltaConcat,
            ih saw hrest]

/-- Helper: once assistant text has been observed, a delta-free suffix
contributes no canonical text. -/
theorem canonicalText_processFrom_true_noDelta (msgs : List CodexMsg)
    (hnd : ∀ m ∈ msgs, isDelta m = false) :
    canonicalText (processFrom true msgs) = "" := by
  induction msgs with
  | nil => rfl
  | cons m rest ih =>
      have htail : ∀ x ∈ rest, isDelta x = false :=
        fun x hx => hnd x (List.mem_cons_of_mem _ hx)
      have ih' := ih htail
      cases m with
      | agentMessageDelta d =>
          have := hnd _ (List.mem_cons_self _ _)
          simp [isDelta] at this
      | agentMessageContentDelta d =>
          simpa [processFrom, handleCodexEvent, canonicalText] using ih'
      | agentMessage msg =>
          simpa [processFrom, handleCodexEvent, canonicalText] using ih'
      | rawResponseItem role content =>
          simpa [processFrom, handleCodexEvent, canonicalText] using ih'
      | otherMsg =>
          simpa [processFrom, handleCodexEvent, canonicalText] using ih'

/-- Helper: with no deltas in the turn, the canonical text is exactly the
first fallback-channel text, emitted once (or empty if none occurs). -/
theorem canonicalText_processFrom_noDelta (msgs : List CodexMsg)
    (hnd : ∀ m ∈ msgs, isDelta m = false) :
    canonicalText (processFrom false msgs) = (firstFallbackText msgs).getD "" := by
  induction msgs with
  | nil => rfl
  | cons m rest ih =>
      have htail : ∀ x ∈ rest, isDelta x = false :=
        fun x hx => hnd x (List.mem_cons_of_mem _ hx)
      have ih' := ih htail
      cases m with
      | agentMessageDelta d =>
          have := hnd _ (List.mem_cons_self _ _)
          simp [isDelta] at this
      | agentMessageContentDelta d =>
          simpa [processFrom, handleCodexEvent, canonicalText, firstFallbackText] using ih'
      | agentMessage msg =>
          have hrest := canonicalText_processFrom_true_noDelta rest htail
          simp [processFrom, handleCodexEvent, canonicalText, firstFallbackText, hrest]
      | rawResponseItem role content =>
          cases hro : (role == "assistant") with
          | true =>
              cases hfo : firstOutputText content with
              | some t =>
                  have hrest := canonicalText_processFrom_true_noDelta rest htail
                  simp [processFrom, handleCodexEvent, canonicalText, firstFallbackText,
                    hro, hfo, hrest]
              | none =>
                  simpa [processFrom, handleCodexEvent, canonicalText, firstFallbackText,
                    hro, hfo] using ih'
          | false =>
              simpa [processFrom, handleCodexEvent, canonicalText, firstFallbackText,
                hro] using ih'
      | otherMsg =>
          simpa [processFrom, handleCodexEvent, canonicalText, firstFallbackText] using ih'

/-- C1 counterexample: in the interleaving where the full `agent_message`
"Hello world" arrives before deltas "Hello" and " world", the handler
forwards the full message (no delta observed yet) and then also forwards
both deltas, so the canonical text is the assistant text twice, not the
delta concatenation emitted exactly once. -/
theorem c1_full_before_delta_duplicates :
    deltaConcat fullBeforeDeltas = "Hello world" ∧
    canonicalText (processFrom false fullBeforeDeltas) = "Hello worldHello world" ∧
    canonicalText (processFrom false fullBeforeDeltas) ≠ deltaConcat fullBeforeDeltas := by
  refine ⟨by decide, by decide, by decide⟩

/-- C1 (amended): for every turn whose per-turn flag was reset by the
`startSession` / `continueSession` prelude, and every interleaving of
backend text events in which no full-message (`agent_message`) or
raw-content-block event precedes the first `agent_message_delta`, the
adapter's canonical `agent_message` output equals the concatenation of the
primary delta events emitted exactly once: every `agent_message_delta` is
forwarded, every `agent_message_content_delta` is discarded, and the
full-message and raw-content-block channels are forwarded only if no
assistant text has been observed yet in the turn — in particular, a turn
with no deltas emits exactly the first fallback-channel text once. -/
theorem c1_delta_dedup (c : ClientState) (msgs : List CodexMsg) :
    (fallbackGuarded false msgs = true →
      canonicalText
          (processFrom (startSessionPrelude c).sawAssistantTextInFlight msgs)
        = deltaConcat msgs ∧
      canonicalText
          (processFrom (continueSessionPrelude c).sawAssistantTextInFlight msgs)
        = deltaConcat msgs) ∧
    ((∀ m ∈ msgs, isDelta m = false) →
      canonicalText
          (processFrom (startSessionPrelude c).sawAssistantTextInFlight msgs)
        = (firstFallbackText msgs).getD "") := by
  constructor
  · intro hguard
    exact ⟨canonicalText_processFrom_guarded msgs false hguard,
           canonicalText_processFrom_guarded msgs false hguard⟩
  · intro hnd
    exact canonicalText_processFrom_noDelta msgs hnd

/-- C1 witness: a concrete delta/content-delta/full-message interleaving in
the guarded order yields exactly the delta concatenation once. -/
theorem c1_delta_dedup_witness :
    fallbackGuarded false
        [CodexMsg.agentMessageDelta "Hello",
         CodexMsg.agentMessageContentDelta "Hello",
         CodexMsg.agentMessageDelta " world",
         CodexMsg.agentMessage "Hello world"] = true ∧
    canonicalText
        (processFrom
          (startSessionPrelude
            { sessionId := none, conversationId := none,
              sawAssistantTextInFlight := true, pendingApprovals := [],
              activeClaudeProc := false, hasLastUsage := true,
              hasLastRateLimits := true }).sawAssistantTextInFlight
          [CodexMsg.agentMessageDelta "Hello",
           CodexMsg.agentMessageContentDelta "Hello",
           CodexMsg.agentMessageDelta " world",
           CodexMsg.agentMessage "Hello world"])
      = deltaConcat
          [CodexMsg.agentMessageDelta "Hello",
           CodexMsg.agentMessageContentDelta "Hello",
           CodexMsg.agentMessageDelta " world",
           CodexMsg.agentMessage "Hello world"] ∧
    canonicalText
        (processFrom (startSessionPrelude
          { sessionId := none, conversationId := none,
            sawAssistantTextInFlight := true, pendingApprovals := [],
            activeClaudeProc := false, hasLastUsage := true,
            hasLastRateLimits := true }).sawAssistantTextInFlight
          [CodexMsg.agentMessage "Hi", CodexMsg.agentMessage "Hi"])
      = (firstFallbackText
          [CodexMsg.agentMessage "Hi", CodexMsg.agentMessage "Hi"]).getD "" :=
  ⟨by decide,
   ((c1_delta_dedup
     { sessionId := none, conversationId := none,
       sawAssistantTextInFlight := true, pendingApprovals := [],
       activeClaudeProc := false, hasLastUsage := true,
       hasLastRateLimits := true }
     [CodexMsg.agentMessageDelta "Hello",
      CodexMsg.agentMessageContentDelta "Hello",
      CodexMsg.agentMessageDelta " world",
      CodexMsg.agentMessage "Hello world"]).1 (by decide)).1,
   (c1_delta_dedup
     { sessionId := none, conversationId := none,
       sawAssistantTextInFlight := true, pendingApprovals := [],
       activeClaudeProc := false, hasLastUsage := true,
       hasLastRateLimits := true }
     [CodexMsg.agentMessage "Hi", CodexMsg.agentMessage "Hi"]).2 (by decide)⟩

/-- C6: rate-limit window normalization derives `used_percent` from
whichever form is present: an explicit `used_percent`, a complementary
`remaining_percent`, or a `used`/`limit` pair scaled and clamped; the
inputs `{used_percent: 40}`, `{remaining_percent: 60}` and
`{used: 40, limit: 100}` all normalize to `used_percent = 40`. -/
theorem c6_rate_limit_normalization :
    normalizeRateLimitWindowUsedPercent { used_percent := .num 40 } = some 40 ∧
    normalizeRateLimitWindowUsedPercent { remaining_percent := .num 60 } = some 40 ∧
    normalizeRateLimitWindowUsedPercent { used := .num 40, limit := .num 100 } = some 40 := by
  refine ⟨rfl, ?_, ?_⟩
  · show some ((100 : ℚ) - 60) = some 40
    norm_num
  · show some (max 0 (min 100 ((40 : ℚ) / 100 * 100))) = some 40
    norm_num

/-- Helper: one append advances the id counter by one and keeps the
retained ids contiguous, ending at the new counter minus one. -/
theorem appendStreamEvent_ids (N : Nat) (k : Nat) (s : ChatStream)
    (h1 : s.nextId = k + 1)
    (h2 : s.events.map (fun e => e.id) = List.range' (k + 1 - min k N) (min k N))
    (event data : String) (now : Int) :
    ((appendStreamEvent N s event data now).1).nextId = (k + 1) + 1 ∧
    ((appendStreamEvent N s event data now).1).events.map (fun e => e.id)
      = List.range' ((k + 1) + 1 - min (k + 1) N) (min (k + 1) N) := by
  have hlen : s.events.length = min k N := by
    have hl := congrArg List.length h2
    simpa using hl
  have hmk : min k N ≤ k := Nat.min_le_left k N
  refine ⟨by simp [appendStreamEvent, h1], ?_⟩
  have hmap : (s.events ++ [({ id := s.nextId, event := event, data := data, ts := now } : StreamEvent)]).map
        (fun e => e.id)
      = List.range' (k + 1 - min k N) (min k N + 1) := by
    rw [List.map_append, h2, List.range'_concat]
    simp only [List.map_cons, List.map_nil, h1]
    congr 2
    omega
  have hev : ((appendStreamEvent N s event data now).1).events
      = (if N < (s.events ++ [({ id := s.nextId, event := event, data := data, ts := now } : StreamEvent)]).length
         then (s.events ++ [({ id := s.nextId, event := event, data := data, ts := now } : StreamEvent)]).drop
           ((s.events ++ [({ id := s.nextId, event := event, data := data, ts := now } : StreamEvent)]).length - N)
         else s.events ++ [({ id := s.nextId, event := event, data := data, ts := now } : StreamEvent)]) := rfl
  rw [hev]
  have hfullLen :
      (s.events ++ [({ id := s.nextId, event := event, data := data, ts := now } : StreamEvent)]).length
        = min k N + 1 := by simp [hlen]
  by_cases hcap : N < min k N + 1
  · -- over capacity: `min k N = N`, drop exactly one oldest event
    have hNk : N ≤ k := by omega
    rw [if_pos (by rw [hfullLen]; exact hcap), hfullLen, List.map_drop, hmap]
    have hminN : min k N = N := Nat.min_eq_right hNk
    have hmin1 : min (k + 1) N = N := Nat.min_eq_right (by omega)
    rw [hminN, hmin1]
    have : N + 1 - N = 1 := by omega
    rw [this, List.range'_succ]
    simp only [List.drop_succ_cons, List.drop_zero]
    congr 1
    omega
  · -- under capacity: nothing trimmed
    rw [if_neg (by rw [hfullLen]; exact hcap), hmap]
    have hkN : k < N := by omega
    have hmink : min k N = k := Nat.min_eq_left (by omega)
    have hmin1 : min (k + 1) N = k + 1 := Nat.min_eq_left (by omega)
    rw [hmink, hmin1] at *
    congr 1
    omega

/-- Helper: ids after a run of appends from a state whose counter is at
`k + 1` with contiguous retained ids. -/
theorem applyAppends_ids (N : Nat) :
    ∀ (ops : List AppendOp) (k : Nat) (s : ChatStream),
      s.nextId = k + 1 →
      s.events.map (fun e => e.id) = List.range' (k + 1 - min k N) (min k N) →
      (applyAppends N s ops).nextId = k + ops.length + 1 ∧
      (applyAppends N s ops).events.map (fun e => e.id)
        = List.range' (k + ops.length + 1 - min (k + ops.length) N) (min (k + ops.length) N) := by
  intro ops
  induction ops with
  | nil =>
      intro k s h1 h2
      exact ⟨by simpa [applyAppends] using h1, by simpa [applyAppends] using h2⟩
  | cons op rest ih =>
      intro k s h1 h2
      have hstep := appendStreamEvent_ids N k s h1 h2 op.event op.data op.ts
      have hres := ih (k + 1) _ hstep.1 hstep.2
      constructor
      · simp only [applyAppends, List.length_cons]
        rw [hres.1]; omega
      · simp only [applyAppends, List.length_cons]
        rw [hres.2]
        congr 2 <;> omega

/-- C3: event ids are assigned by a strictly increasing per-buffer counter
starting at 1 with no gaps among retained events; trimming removes only a
prefix of oldest events, so once capacity `N` is exceeded exactly the
newest `N` events are kept with contiguous ids (`N = 2000` in the
web-server `MemoryStore`, whose append shares this core logic, and
`N = 4000` in the sessiond gateway); and `listStreamEventsSince` returns
exactly the retained events whose id is greater than the cursor, in id
order. -/
theorem c3_stream_event_ids (N : Nat) (hN : 1 ≤ N) (ops : List AppendOp)
    (t0 : Int) (cursor : Nat) :
    (applyAppends N (freshChatStream t0) ops).nextId = ops.length + 1 ∧
    (applyAppends N (freshChatStream t0) ops).events.map (fun e => e.id)
      = List.range' (ops.length + 1 - min ops.length N) (min ops.length N) ∧
    (applyAppends N (freshChatStream t0) ops).events.length = min ops.length N ∧
    (ops.length ≤ N →
      (applyAppends N (freshChatStream t0) ops).events.map (fun e => e.id)
        = List.range' 1 ops.length) ∧
    List.Pairwise (fun a b => a.id < b.id) (applyAppends N (freshChatStream t0) ops).events ∧
    (∀ e, e ∈ listStreamEventsSince (applyAppends N (freshChatStream t0) ops) cursor ↔
        e ∈ (applyAppends N (freshChatStream t0) ops).events ∧ cursor < e.id) ∧
    List.Pairwise (fun a b => a.id < b.id)
      (listStreamEventsSince (applyAppends N (freshChatStream t0) ops) cursor) := by
  have hbase := applyAppends_ids N ops 0 (freshChatStream t0) rfl (by simp [freshChatStream])
  simp only [Nat.zero_add] at hbase
  have hpw : List.Pairwise (fun a b : StreamEvent => a.id < b.id)
      (applyAppends N (freshChatStream t0) ops).events := by
    have hr : List.Pairwise (· < ·)
        ((applyAppends N (freshChatStream t0) ops).events.map (fun e => e.id)) := by
      rw [hbase.2]; exact List.pairwise_lt_range' _ _
    exact (List.pairwise_map.mp hr)
  refine ⟨hbase.1, hbase.2, ?_, ?_, hpw, ?_, ?_⟩
  · have := congrArg List.length hbase.2
    simpa using this
  · intro hle
    rw [hbase.2]
    have hm : min ops.length N = ops.length := Nat.min_eq_left hle
    rw [hm]
    congr 1
    omega
  · intro e
    simp [listStreamEventsSince, List.mem_filter]
  · exact hpw.sublist (List.filter_sublist _)

/-- C3 witness. -/
theorem c3_stream_event_ids_witness :
    1 ≤ sessiondMaxEvents ∧
    ((applyAppends sessiondMaxEvents (freshChatStream 0)
        [⟨"start", "p", 0⟩, ⟨"delta", "t", 1⟩, ⟨"done", "ok", 2⟩]).nextId = 3 + 1 ∧
      (applyAppends sessiondMaxEvents (freshChatStream 0)
          [⟨"start", "p", 0⟩, ⟨"delta", "t", 1⟩, ⟨"done", "ok", 2⟩]).events.map (fun e => e.id)
        = List.range' (3 + 1 - min 3 sessiondMaxEvents) (min 3 sessiondMaxEvents) ∧
      (applyAppends sessiondMaxEvents (freshChatStream 0)
          [⟨"start", "p", 0⟩, ⟨"delta", "t", 1⟩, ⟨"done", "ok", 2⟩]).events.length
        = min 3 sessiondMaxEvents ∧
      (3 ≤ sessiondMaxEvents →
        (applyAppends sessiondMaxEvents (freshChatStream 0)
            [⟨"start", "p", 0⟩, ⟨"delta", "t", 1⟩, ⟨"done", "ok", 2⟩]).events.map (fun e => e.id)
          = List.range' 1 3) ∧
      List.Pairwise (fun a b => a.id < b.id)
        (applyAppends sessiondMaxEvents (freshChatStream 0)
          [⟨"start", "p", 0⟩, ⟨"delta", "t", 1⟩, ⟨"done", "ok", 2⟩]).events ∧
      (∀ e, e ∈ listStreamEventsSince (applyAppends sessiondMaxEvents (freshChatStream 0)
            [⟨"start", "p", 0⟩, ⟨"delta", "t", 1⟩, ⟨"done", "ok", 2⟩]) 1 ↔
          e ∈ (applyAppends sessiondMaxEvents (freshChatStream 0)
            [⟨"start", "p", 0⟩, ⟨"delta", "t", 1⟩, ⟨"done", "ok", 2⟩]).events ∧ 1 < e.id) ∧
      List.Pairwise (fun a b => a.id < b.id)
        (listStreamEventsSince (applyAppends sessiondMaxEvents (freshChatStream 0)
          [⟨"start", "p", 0⟩, ⟨"delta", "t", 1⟩, ⟨"done", "ok", 2⟩]) 1)) ∧
    (applyAppends sessiondMaxEvents (freshChatStream 0)
        [⟨"start", "p", 0⟩, ⟨"delta", "t", 1⟩, ⟨"done", "ok", 2⟩]).events.map (fun e => e.id)
      = List.range' 1 3 :=
  ⟨by decide,
   c3_stream_event_ids sessiondMaxEvents (by decide)
     [⟨"start", "p", 0⟩, ⟨"delta", "t", 1⟩, ⟨"done", "ok", 2⟩] 0 1,
   (c3_stream_event_ids sessiondMaxEvents (by decide)
     [⟨"start", "p", 0⟩, ⟨"delta", "t", 1⟩, ⟨"done", "ok", 2⟩] 0 1).2.2.2.1 (by decide)⟩

/-- Helper: while the chat's stream holds listener `l`, every append on
that chat notifies `l` of the appended event, across a whole run. -/
theorem memoryStore_applyAppends_notifies (sessionId chatId : String) (l : Nat) :
    ∀ (ops : List AppendOp) (st : MemoryStoreState) (s : StoreStream),
      st.streamsByChatKey (chatKey sessionId chatId) = some s → l ∈ s.listeners →
      ∀ p ∈ (MemoryStore.applyAppends st sessionId chatId ops).2, (l, p.1) ∈ p.2 := by
  intro ops
  induction ops with
  | nil =>
      intro st s _ _ p hp
      simp [MemoryStore.applyAppends] at hp
  | cons op rest ih =>
      intro st s hs hl p hp
      simp only [MemoryStore.applyAppends, MemoryStore.appendStreamEvent,
        MemoryStore.ensureStream, hs, List.mem_cons] at hp
      rcases hp with hp | hp
      · subst hp
        exact List.mem_map.mpr ⟨l, hl, rfl⟩
      · exact ih
          (MemoryStore.setStream st (chatKey sessionId chatId)
            { core := (appendStreamEvent memoryStoreMaxEvents s.core op.event op.data op.ts).1,
              listeners := s.listeners })
          { core := (appendStreamEvent memoryStoreMaxEvents s.core op.event op.data op.ts).1,
            listeners := s.listeners }
          (by simp [MemoryStore.setStream]) hl p hp

/-- Helper: every heartbeat of a run is at least the minimum gap after the
run's initial `lastNonProgressAt` and `lastHeartbeatAt`, provided input
times are nondecreasing and dominate the initial `lastNonProgressAt`. -/
theorem hbRun_time_lowerBounds (turnStartAt : Int) :
    ∀ (inputs : List HbInput) (st : HbState),
      List.Pairwise (fun a b => a.time ≤ b.time) inputs →
      (∀ i ∈ inputs, st.lastNonProgressAt ≤ i.time) →
      ∀ h ∈ hbRun turnStartAt st inputs,
        st.lastNonProgressAt + heartbeatEveryMs ≤ h.time ∧
        st.lastHeartbeatAt + heartbeatEveryMs ≤ h.time := by
  intro inputs
  induction inputs with
  | nil => intro st _ _ h hh; simp [hbRun] at hh
  | cons i rest ih =>
      intro st hpw hlb h hh
      have hpwTail := (List.pairwise_cons.mp hpw).2
      have hpwHead := (List.pairwise_cons.mp hpw).1
      cases i with
      | tick t p =>
          by_cases h1 : t - st.lastNonProgressAt < heartbeatEveryMs
          · rw [hbRun] at hh
            simp only [hbStep, hbTick, if_pos h1, Option.toList_none, List.nil_append] at hh
            exact ih st hpwTail (fun j hj => hlb j (List.mem_cons_of_mem _ hj)) h hh
          · by_cases h2 : t - st.lastHeartbeatAt < heartbeatEveryMs
            · rw [hbRun] at hh
              simp only [hbStep, hbTick, if_neg h1, if_pos h2, Option.toList_none,
                List.nil_append] at hh
              exact ih st hpwTail (fun j hj => hlb j (List.mem_cons_of_mem _ hj)) h hh
            · rw [hbRun] at hh
              simp only [hbStep, hbTick, if_neg h1, if_neg h2, Option.toList_some,
                List.singleton_append, List.mem_cons] at hh
              rcases hh with hh | hh
              · subst hh
                constructor <;> simp only [heartbeatEveryMs] at * <;> omega
              · have hrest := ih { st with lastHeartbeatAt := t } hpwTail
                  (fun j hj => hlb j (List.mem_cons_of_mem _ hj)) h hh
                constructor
                · exact hrest.1
                · have := hrest.2
                  simp only [heartbeatEveryMs] at *
                  omega
      | emitted t k =>
          rw [hbRun] at hh
          simp only [hbStep, List.nil_append] at hh
          by_cases hk : countsAsNonProgress k = true
          · have hrest := ih { st with lastNonProgressAt := t } hpwTail
              (fun j hj => (hpwHead j hj : (HbInput.emitted t k).time ≤ j.time))
              h (by simpa [hbObserve, hk] using hh)
            have hle : st.lastNonProgressAt ≤ t := hlb _ (List.mem_cons_self _ _)
            constructor
            · have := hrest.1
              simp only [HbInput.time] at *
              omega
            · exact hrest.2
          · exact ih st hpwTail (fun j hj => hlb j (List.mem_cons_of_mem _ hj)) h
              (by simpa [hbObserve, hk] using hh)

/-- Helper: consecutive heartbeats of a run are separated by at least the
minimum gap. -/
theorem hbRun_pairwise_gap (turnStartAt : Int) :
    ∀ (inputs : List HbInput) (st : HbState),
      List.Pairwise (fun a b => a.time ≤ b.time) inputs →
      (∀ i ∈ inputs, st.lastNonProgressAt ≤ i.time) →
      List.Pairwise (fun a b => a.time + heartbeatEveryMs ≤ b.time)
        (hbRun turnStartAt st inputs) := by
  intro inputs
  induction inputs with
  | nil => intro st _ _; simp [hbRun]
  | cons i rest ih =>
      intro st hpw hlb
      have hpwTail := (List.pairwise_cons.mp hpw).2
      have hpwHead := (List.pairwise_cons.mp hpw).1
      cases i with
      | tick t p =>
          by_cases h1 : t - st.lastNonProgressAt < heartbeatEveryMs
          · rw [hbRun]
            simp only [hbStep, hbTick, if_pos h1, Option.toList_none, List.nil_append]
            exact ih st hpwTail (fun j hj => hlb j (List.mem_cons_of_mem _ hj))
          · by_cases h2 : t - st.lastHeartbeatAt < heartbeatEveryMs
            · rw [hbRun]
              simp only [hbStep, hbTick, if_neg h1, if_pos h2, Option.toList_none,
                List.nil_append]
              exact ih st hpwTail (fun j hj => hlb j (List.mem_cons_of_mem _ hj))
            · rw [hbRun]
              simp only [hbStep, hbTick, if_neg h1, if_neg h2, Option.toList_some,
                List.singleton_append]
              refine List.pairwise_cons.mpr ⟨?_, ?_⟩
              · intro h hh
                have := (hbRun_time_lowerBounds turnStartAt rest
                  { st with lastHeartbeatAt := t } hpwTail
                  (fun j hj => hlb j (List.mem_cons_of_mem _ hj)) h hh).2
                simpa using this
              · exact ih { st with lastHeartbeatAt := t } hpwTail
                  (fun j hj => hlb j (List.mem_cons_of_mem _ hj))
      | emitted t k =>
          rw [hbRun]
          simp only [hbStep, List.nil_append]
          by_cases hk : countsAsNonProgress k = true
          · simpa [hbObserve, hk] using
              ih { st with lastNonProgressAt := t } hpwTail
                (fun j hj => (hpwHead j hj : (HbInput.emitted t k).time ≤ j.time))
          · simpa [hbObserve, hk] using
              ih st hpwTail (fun j hj => hlb j (List.mem_cons_of_mem _ hj))

/-- Helper: a heartbeat never fires within the minimum gap after a
non-progress event: any non-progress event strictly before a heartbeat is
at least the gap before it. -/
theorem hbRun_quiet_before (turnStartAt : Int) :
    ∀ (inputs : List HbInput) (st : HbState),
      List.Pairwise (fun a b => a.time ≤ b.time) inputs →
      (∀ i ∈ inputs, st.lastNonProgressAt ≤ i.time) →
      ∀ h ∈ hbRun turnStartAt st inputs,
        ∀ i ∈ inputs, i.isNonProgressEvent = true → i.time < h.time →
          i.time + heartbeatEveryMs ≤ h.time := by
  intro inputs
  induction inputs with
  | nil => intro st _ _ h hh; simp [hbRun] at hh
  | cons j rest ih =>
      intro st hpw hlb h hh i hi hnp hlt
      have hpwTail := (List.pairwise_cons.mp hpw).2
      have hpwHead := (List.pairwise_cons.mp hpw).1
      cases j with
      | tick t p =>
          by_cases h1 : t - st.lastNonProgressAt < heartbeatEveryMs
          · rw [hbRun] at hh
            simp only [hbStep, hbTick, if_pos h1, Option.toList_none, List.nil_append] at hh
            rcases List.mem_cons.mp hi with hi | hi
            · subst hi; simp [HbInput.isNonProgressEvent] at hnp
            · exact ih st hpwTail (fun j hj => hlb j (List.mem_cons_of_mem _ hj)) h hh i hi hnp hlt
          · by_cases h2 : t - st.lastHeartbeatAt < heartbeatEveryMs
            · rw [hbRun] at hh
              simp only [hbStep, hbTick, if_neg h1, if_pos h2, Option.toList_none,
                List.nil_append] at hh
              rcases List.mem_cons.mp hi with hi | hi
              · subst hi; simp [HbInput.isNonProgressEvent] at hnp
              · exact ih st hpwTail (fun j hj => hlb j (List.mem_cons_of_mem _ hj)) h hh i hi hnp hlt
            · rw [hbRun] at hh
              simp only [hbStep, hbTick, if_neg h1, if_neg h2, Option.toList_some,
                List.singleton_append, List.mem_cons] at hh
              rcases hh with hh | hh
              · -- the heartbeat is emitted at this very tick, at time `t`
                rcases List.mem_cons.mp hi with hi | hi
                · subst hi; simp [HbInput.isNonProgressEvent] at hnp
                · -- later inputs are not strictly before `t`
                  exfalso
                  have hti : t ≤ i.time := hpwHead i hi
                  rw [hh] at hlt
                  simp only [HbInput.time] at hlt hti
                  omega
              · rcases List.mem_cons.mp hi with hi | hi
                · subst hi; simp [HbInput.isNonProgressEvent] at hnp
                · exact ih { st with lastHeartbeatAt := t } hpwTail
                    (fun j hj => hlb j (List.mem_cons_of_mem _ hj)) h hh i hi hnp hlt
      | emitted t k =>
          rw [hbRun] at hh
          simp only [hbStep, List.nil_append] at hh
          by_cases hk : countsAsNonProgress k = true
          · have hh' : h ∈ hbRun turnStartAt { st with lastNonProgressAt := t } rest := by
              simpa [hbObserve, hk] using hh
            rcases List.mem_cons.mp hi with hi | hi
            · subst hi
              have := (hbRun_time_lowerBounds turnStartAt rest
                { st with lastNonProgressAt := t } hpwTail
                (fun j hj => (hpwHead j hj : (HbInput.emitted t k).time ≤ j.time)) h hh').1
              simpa [HbInput.time] using this
            · exact ih { st with lastNonProgressAt := t } hpwTail
                (fun j hj => (hpwHead j hj : (HbInput.emitted t k).time ≤ j.time))
                h hh' i hi hnp hlt
          · have hh' : h ∈ hbRun turnStartAt st rest := by
              simpa [hbObserve, hk] using hh
            rcases List.mem_cons.mp hi with hi | hi
            · subst hi; simp [HbInput.isNonProgressEvent, hk] at hnp
            · exact ih st hpwTail (fun j hj => hlb j (List.mem_cons_of_mem _ hj)) h hh' i hi hnp hlt

/-- Helper: each heartbeat reports the elapsed time since turn start and
the pending-approval flag sampled by a tick at its emission time. -/
theorem hbRun_fields (turnStartAt : Int) :
    ∀ (inputs : List HbInput) (st : HbState),
      ∀ h ∈ hbRun turnStartAt st inputs,
        h.sinceMs = max 0 (h.time - turnStartAt) ∧
        HbInput.tick h.time h.pendingApproval ∈ inputs := by
  intro inputs
  induction inputs with
  | nil => intro st h hh; simp [hbRun] at hh
  | cons i rest ih =>
      intro st h hh
      rw [hbRun] at hh
      rcases List.mem_append.mp hh with hh | hh
      · cases i with
        | tick t p =>
            simp only [hbStep] at hh
            by_cases h1 : t - st.lastNonProgressAt < heartbeatEveryMs
            · simp [hbTick, h1] at hh
            · by_cases h2 : t - st.lastHeartbeatAt < heartbeatEveryMs
              · simp [hbTick, h1, h2] at hh
              · simp only [hbTick, if_neg h1, if_neg h2, Option.toList_some,
                  List.mem_singleton] at hh
                subst hh
                exact ⟨rfl, List.mem_cons_self _ _⟩
        | emitted t k => simp [hbStep] at hh
      · have := ih (hbStep turnStartAt st i).1 h hh
        exact ⟨this.1, List.mem_cons_of_mem _ this.2⟩

/-- Helper: liveness — if a tick occurs at `u`, the initial timer state
allows a heartbeat by `u`, and every non-progress event of the run is at
least the gap before `u`, then some heartbeat fires in `(u - gap, u]` —
more precisely in `[u - gap, u]`. -/
theorem hbRun_liveness (turnStartAt : Int) :
    ∀ (inputs : List HbInput) (st : HbState) (u : Int) (p : Bool),
      List.Pairwise (fun a b => a.time ≤ b.time) inputs →
      HbInput.tick u p ∈ inputs →
      st.lastNonProgressAt + heartbeatEveryMs ≤ u →
      st.lastHeartbeatAt + heartbeatEveryMs ≤ u →
      (∀ i ∈ inputs, i.isNonProgressEvent = true → i.time + heartbeatEveryMs ≤ u) →
      ∃ h ∈ hbRun turnStartAt st inputs, u - heartbeatEveryMs ≤ h.time ∧ h.time ≤ u := by
  intro inputs
  induction inputs with
  | nil => intro st u p _ hmem _ _ _; simp at hmem
  | cons j rest ih =>
      intro st u p hpw hmem hnp hhb hquiet
      have hpwTail := (List.pairwise_cons.mp hpw).2
      have hpwHead := (List.pairwise_cons.mp hpw).1
      cases j with
      | tick v q =>
          have hvu : v ≤ u := by
            rcases List.mem_cons.mp hmem with he | hm
            · injection he with hv _; omega
            · exact hpwHead _ hm
          by_cases h1 : v - st.lastNonProgressAt < heartbeatEveryMs
          · -- no emission at `v`; `v` cannot be the qualifying tick
            have hne : v ≠ u := by
              intro he; subst he
              simp only [heartbeatEveryMs] at *
              omega
            have hm : HbInput.tick u p ∈ rest := by
              rcases List.mem_cons.mp hmem with he | hm
              · injection he with hv _; exact absurd hv.symm hne
              · exact hm
            rw [hbRun]
            simp only [hbStep, hbTick, if_pos h1, Option.toList_none, List.nil_append]
            exact ih st u p hpwTail hm hnp hhb
              (fun i hi => hquiet i (List.mem_cons_of_mem _ hi))
          · by_cases h2 : v - st.lastHeartbeatAt < heartbeatEveryMs
            · have hne : v ≠ u := by
                intro he; subst he
                simp only [heartbeatEveryMs] at *
                omega
              have hm : HbInput.tick u p ∈ rest := by
                rcases List.mem_cons.mp hmem with he | hm
                · injection he with hv _; exact absurd hv.symm hne
                · exact hm
              rw [hbRun]
              simp only [hbStep, hbTick, if_neg h1, if_pos h2, Option.toList_none,
                List.nil_append]
              exact ih st u p hpwTail hm hnp hhb
                (fun i hi => hquiet i (List.mem_cons_of_mem _ hi))
            · -- a heartbeat is emitted at `v`
              rw [hbRun]
              simp only [hbStep, hbTick, if_neg h1, if_neg h2, Option.toList_some,
                List.singleton_append]
              by_cases hclose : u - heartbeatEveryMs ≤ v
              · exact ⟨_, List.mem_cons_self _ _, ⟨hclose, hvu⟩⟩
              · -- the emitted heartbeat is too early; recurse past it
                have hne : v ≠ u := by
                  intro he; subst he
                  simp only [heartbeatEveryMs] at *
                  omega
                have hm : HbInput.tick u p ∈ rest := by
                  rcases List.mem_cons.mp hmem with he | hm
                  · injection he with hv _; exact absurd hv.symm hne
                  · exact hm
                have hhb' : ({ st with lastHeartbeatAt := v } : HbState).lastHeartbeatAt
                    + heartbeatEveryMs ≤ u := by
                  simp only [heartbeatEveryMs] at *
                  omega
                obtain ⟨h, hh, hrange⟩ := ih { st with lastHeartbeatAt := v } u p hpwTail hm
                  hnp hhb' (fun i hi => hquiet i (List.mem_cons_of_mem _ hi))
                exact ⟨h, List.mem_cons_of_mem _ hh, hrange⟩
      | emitted t k =>
          have hm : HbInput.tick u p ∈ rest := by
            rcases List.mem_cons.mp hmem with he | hm
            · exact absurd he (by simp)
            · exact hm
          rw [hbRun]
          simp only [hbStep, List.nil_append]
          by_cases hk : countsAsNonProgress k = true
          · have hq : t + heartbeatEveryMs ≤ u := by
              have := hquiet (HbInput.emitted t k) (List.mem_cons_self _ _)
                (by simp [HbInput.isNonProgressEvent, hk])
              simpa [HbInput.time] using this
            have hnp' : ({ st with lastNonProgressAt := t } : HbState).lastNonProgressAt
                + heartbeatEveryMs ≤ u := hq
            simp only [hbObserve, hk, if_pos]
            exact ih { st with lastNonProgressAt := t } u p hpwTail hm hnp' hhb
              (fun i hi => hquiet i (List.mem_cons_of_mem _ hi))
          · simp only [hbObserve, hk]
            simp only [Bool.false_eq_true, if_false]
            exact ih st u p hpwTail hm hnp hhb
              (fun i hi => hquiet i (List.mem_cons_of_mem _ hi))

/-- C9: while a turn runs, heartbeats fire only when at least
`heartbeatEveryMs` (≈10s, sampled by a ≈1s timer) have passed since the
last non-progress event — hence also since turn start — and since the
previous heartbeat, so heartbeats are never closer than the minimum gap
and never fire while non-heartbeat events are flowing; each heartbeat
carries the elapsed time since turn start and the pending-approval flag
sampled by its tick; during a quiet stretch a tick past the gap yields a
heartbeat within the interval; and the turn's completion tail emits
exactly one terminal `done` / `turn_error` event, as its final event. -/
theorem c9_heartbeat_discipline (turnStartAt : Int) (inputs : List HbInput)
    (hsorted : List.Pairwise (fun a b => a.time ≤ b.time) inputs)
    (hlb : ∀ i ∈ inputs, turnStartAt ≤ i.time) :
    List.Pairwise (fun a b => a.time + heartbeatEveryMs ≤ b.time)
      (heartbeats turnStartAt inputs) ∧
    (∀ h ∈ heartbeats turnStartAt inputs, turnStartAt + heartbeatEveryMs ≤ h.time) ∧
    (∀ h ∈ heartbeats turnStartAt inputs, ∀ i ∈ inputs,
      i.isNonProgressEvent = true → i.time < h.time →
      i.time + heartbeatEveryMs ≤ h.time) ∧
    (∀ h ∈ heartbeats turnStartAt inputs,
      h.sinceMs = max 0 (h.time - turnStartAt) ∧
      HbInput.tick h.time h.pendingApproval ∈ inputs) ∧
    (∀ u p, HbInput.tick u p ∈ inputs →
      turnStartAt + heartbeatEveryMs ≤ u → heartbeatEveryMs ≤ u →
      (∀ i ∈ inputs, i.isNonProgressEvent = true → i.time + heartbeatEveryMs ≤ u) →
      ∃ h ∈ heartbeats turnStartAt inputs,
        u - heartbeatEveryMs ≤ h.time ∧ h.time ≤ u) ∧
    (∀ outcome : Except String RunTurnResult,
      (finishTurnEvents outcome).countP isTerminalEvent = 1 ∧
      ∃ last, (finishTurnEvents outcome).getLast? = some last ∧
        isTerminalEvent last = true) := by
  refine ⟨?_, ?_, ?_, ?_, ?_, ?_⟩
  · exact hbRun_pairwise_gap turnStartAt inputs (initHbState turnStartAt) hsorted hlb
  · intro h hh
    exact (hbRun_time_lowerBounds turnStartAt inputs (initHbState turnStartAt)
      hsorted hlb h hh).1
  · exact hbRun_quiet_before turnStartAt inputs (initHbState turnStartAt) hsorted hlb
  · exact hbRun_fields turnStartAt inputs (initHbState turnStartAt)
  · intro u p hmem h10 h0 hquiet
    exact hbRun_liveness turnStartAt inputs (initHbState turnStartAt) u p hsorted hmem
      h10 (by simpa [initHbState] using h0) hquiet
  · intro outcome
    cases outcome with
    | ok r =>
        rcases r with ⟨hu, hrl⟩
        cases hu <;> cases hrl <;> exact ⟨by decide, by decide⟩
    | error e =>
        have h : finishTurnEvents (Except.error e) = ["turn_error"] := rfl
        rw [h]
        exact ⟨by decide, by decide⟩

/-- C9 witness. -/
theorem c9_heartbeat_discipline_witness :
    List.Pairwise (fun a b : HbInput => a.time ≤ b.time)
      [HbInput.emitted 1000 .agentMessage, HbInput.tick 5000 false,
       HbInput.tick 12000 true] ∧
    (∀ i ∈ [HbInput.emitted 1000 .agentMessage, HbInput.tick 5000 false,
        HbInput.tick 12000 true], (0 : Int) ≤ i.time) ∧
    (∀ h ∈ heartbeats 0
        [HbInput.emitted 1000 .agentMessage, HbInput.tick 5000 false,
         HbInput.tick 12000 true],
      (0 : Int) + heartbeatEveryMs ≤ h.time) ∧
    (∃ h ∈ heartbeats 0
        [HbInput.emitted 1000 .agentMessage, HbInput.tick 5000 false,
         HbInput.tick 12000 true],
      (12000 : Int) - heartbeatEveryMs ≤ h.time ∧ h.time ≤ 12000) :=
  ⟨by decide, by decide,
   (c9_heartbeat_discipline 0
     [HbInput.emitted 1000 .agentMessage, HbInput.tick 5000 false,
      HbInput.tick 12000 true] (by decide) (by decide)).2.1,
   (c9_heartbeat_discipline 0
     [HbInput.emitted 1000 .agentMessage, HbInput.tick 5000 false,
      HbInput.tick 12000 true] (by decide) (by decide)).2.2.2.2.1 12000 true
     (by decide) (by decide) (by decide) (by decide)⟩

/-- C10: `MemoryStore.resetStream` clears the conversation's event log,
restarts numbering at 1 and sets status to `running`, but leaves the
buffer's subscriber set untouched — every listener subscribed before the
reset stays subscribed and is synchronously notified of every event
appended after the reset — and streams of every other chat key are
unchanged. -/
theorem c10_reset_stream_keeps_listeners (st : MemoryStoreState)
    (sessionId chatId : String) (l : Nat) (now : Int) (s : StoreStream)
    (hs : st.streamsByChatKey (chatKey sessionId chatId) = some s)
    (hl : l ∈ s.listeners) :
    (MemoryStore.resetStream st sessionId chatId now).streamsByChatKey
        (chatKey sessionId chatId)
      = some { core := { status := .running, nextId := 1, events := [], updatedAt := now },
               listeners := s.listeners } ∧
    (∀ k, k ≠ chatKey sessionId chatId →
      (MemoryStore.resetStream st sessionId chatId now).streamsByChatKey k
        = st.streamsByChatKey k) ∧
    (∀ ops, ∀ p ∈ (MemoryStore.applyAppends
        (MemoryStore.resetStream st sessionId chatId now) sessionId chatId ops).2,
      (l, p.1) ∈ p.2) := by
  refine ⟨?_, ?_, ?_⟩
  · simp [MemoryStore.resetStream, MemoryStore.ensureStream, hs, MemoryStore.setStream]
  · intro k hk
    simp [MemoryStore.resetStream, MemoryStore.ensureStream, hs, MemoryStore.setStream, hk]
  · intro ops
    refine memoryStore_applyAppends_notifies sessionId chatId l ops _
      { core := { status := .running, nextId := 1, events := [], updatedAt := now },
        listeners := s.listeners } ?_ hl
    simp [MemoryStore.resetStream, MemoryStore.ensureStream, hs, MemoryStore.setStream]

/-- C2: a start request against a conversation whose runner is currently
busy fails immediately with the `chat_busy` conflict and leaves the
gateway state untouched — the stream buffer is not reset, no events are
appended, and the runner map (busy flag, abort controller, session
binding) is not mutated; likewise the `CodexManager.runTurn` entry guard
throws `chat_busy` without touching the runner map, whatever instance
binding the request carries. -/
theorem c2_busy_start_conflict (st : GatewayState) (req : StartRequest) (now : Int)
    (hbusy : isBusy st.manager req.sessionId req.chatId = true) :
    handleChatsStart st req now = (.conflict "chat_busy", st) ∧
    ∀ binding,
      (runTurnEnter st.manager req.sessionId req.chatId binding).2 = .error "chat_busy" ∧
      (runTurnEnter st.manager req.sessionId req.chatId binding).1 = st.manager := by
  constructor
  · simp [handleChatsStart, hbusy]
  · intro binding
    obtain ⟨r, hr, hb⟩ : ∃ r,
        st.manager.runners (chatKey req.sessionId req.chatId) = some r ∧ r.busy = true := by
      unfold isBusy at hbusy
      cases hm : st.manager.runners (chatKey req.sessionId req.chatId) with
      | none => rw [hm] at hbusy; simp at hbusy
      | some r => rw [hm] at hbusy; exact ⟨r, rfl, hbusy⟩
    by_cases hcond : (r.instanceId ≠ resolveInstanceId binding ∨
        r.codexHome ≠ resolveCodexHome binding)
    · simp [runTurnEnter, managerGet, hr, hcond, hb]
    · simp [runTurnEnter, managerGet, hr, hcond, hb]

/-- C2 witness. -/
theorem c2_busy_start_conflict_witness :
    isBusy
        ⟨fun k => if k = "s:c"
          then some { freshRunnerState "default" none with busy := true } else none⟩
        "s" "c" = true ∧
    handleChatsStart
        { streamsByChatKey := fun _ => none,
          manager := ⟨fun k => if k = "s:c"
            then some { freshRunnerState "default" none with busy := true } else none⟩ }
        { sessionId := "s", chatId := "c", prompt := "p", assistantMessageId := none,
          binding := none, config := ⟨none, none, none, none, none⟩ } 0
      = (.conflict "chat_busy",
         { streamsByChatKey := fun _ => none,
           manager := ⟨fun k => if k = "s:c"
             then some { freshRunnerState "default" none with busy := true } else none⟩ }) :=
  ⟨by decide,
   (c2_busy_start_conflict
     { streamsByChatKey := fun _ => none,
       manager := ⟨fun k => if k = "s:c"
         then some { freshRunnerState "default" none with busy := true } else none⟩ }
     { sessionId := "s", chatId := "c", prompt := "p", assistantMessageId := none,
       binding := none, config := ⟨none, none, none, none, none⟩ } 0 (by decide)).1⟩

/-- C4: for a busy conversation, `abort` first resolves every pending
approval resolver with decision `abort` — emptying the pending map — and
only afterwards signals process teardown (SIGTERM on an active claude
child, then `AbortController.abort`): the trace is exactly the
per-approval resolutions, in pending order, followed by teardown-only
actions, so a subprocess blocked on an approval is unblocked before any
teardown signal. -/
theorem c4_abort_resolves_before_teardown (m : CodexManagerState)
    (sessionId chatId : String) (r : RunnerState)
    (hr : m.runners (chatKey sessionId chatId) = some r)
    (hbusy : r.busy = true) :
    (managerAbort m sessionId chatId).2.1 = .ok () ∧
    (∃ cl, (managerAbort m sessionId chatId).1.runners (chatKey sessionId chatId)
        = some { r with client := cl } ∧ cl.pendingApprovals = []) ∧
    ∃ tail,
      (managerAbort m sessionId chatId).2.2
        = r.client.pendingApprovals.map (fun id => AbortAction.resolveApproval id .abort)
            ++ tail ∧
      ∀ a ∈ tail, a.isTeardown = true := by
  have habort : managerAbort m sessionId chatId
      = (setRunner m (chatKey sessionId chatId)
          (some { r with client := (abortPendingApprovals r.client).1 }),
         .ok (),
         (abortPendingApprovals r.client).2.2
           ++ (if r.hasAbort then [AbortAction.abortControllerAbort] else [])) := by
    simp [managerAbort, hr, hbusy]
  refine ⟨by rw [habort], ?_, ?_⟩
  · refine ⟨(abortPendingApprovals r.client).1, ?_, rfl⟩
    rw [habort]
    simp [setRunner]
  · refine ⟨(if r.client.activeClaudeProc then [AbortAction.sigtermClaude] else [])
      ++ (if r.hasAbort then [AbortAction.abortControllerAbort] else []), ?_, ?_⟩
    · rw [habort]
      simp [abortPendingApprovals]
    · intro a ha
      rcases List.mem_append.mp ha with h | h <;> (split at h <;> simp_all [AbortAction.isTeardown])

/-- C4 witness. -/
theorem c4_abort_resolves_before_teardown_witness :
    busyManagerFixture.runners (chatKey "s" "c") = some busyRunnerFixture ∧
    busyRunnerFixture.busy = true ∧
    (managerAbort busyManagerFixture "s" "c").2.1 = .ok () :=
  ⟨by decide, by decide,
   (c4_abort_resolves_before_teardown busyManagerFixture "s" "c" busyRunnerFixture
     (by decide) (by decide)).1⟩

/-- C5: for a runner with a live agent session, a requested-turn
fingerprint differing from the recorded one makes the turn emit a
`session_reset` progress stage, discard the binding via
`resetSessionState`, and call `startSession` (recording the new
fingerprint); an equal fingerprint makes it call `continueSession` with
the runner untouched. -/
theorem c5_config_fingerprint_reset (r : RunnerState) (config : TurnConfig)
    (hlive : r.client.sessionId.isSome = true) :
    (r.sessionConfigKey ≠ some (sessionConfigKey config) →
      (sessionDecision r config).1 = ["session_reset", "start_session"] ∧
      (sessionDecision r config).2.1 = SessionCall.startCall ∧
      (sessionDecision r config).2.2.client.sessionId = none ∧
      (sessionDecision r config).2.2.client.conversationId = none ∧
      (sessionDecision r config).2.2.client.pendingApprovals = [] ∧
      (sessionDecision r config).2.2.sessionConfigKey = some (sessionConfigKey config)) ∧
    (r.sessionConfigKey = some (sessionConfigKey config) →
      (sessionDecision r config).1 = ["continue_session"] ∧
      (sessionDecision r config).2.1 = SessionCall.continueCall ∧
      (sessionDecision r config).2.2 = r) := by
  constructor
  · intro hneq
    simp [sessionDecision, resetSessionState, abortPendingApprovals, hlive, hneq]
  · intro heq
    simp [sessionDecision, heq, hlive]

/-- C5 witness. -/
theorem c5_config_fingerprint_reset_witness :
    ({ freshRunnerState "default" none with
       client := { freshClientState with sessionId := some "sess" },
       sessionConfigKey :=
         some (sessionConfigKey ⟨none, some .readOnly, none, none, none⟩)
     } : RunnerState).client.sessionId.isSome = true ∧
    some (sessionConfigKey ⟨none, some .readOnly, none, none, none⟩)
        ≠ some (sessionConfigKey ⟨none, some .workspaceWrite, none, none, none⟩) ∧
    (sessionDecision
        { freshRunnerState "default" none with
          client := { freshClientState with sessionId := some "sess" },
          sessionConfigKey :=
            some (sessionConfigKey ⟨none, some .readOnly, none, none, none⟩) }
        ⟨none, some .workspaceWrite, none, none, none⟩).1
      = ["session_reset", "start_session"] ∧
    (sessionDecision
        { freshRunnerState "default" none with
          client := { freshClientState with sessionId := some "sess" },
          sessionConfigKey :=
            some (sessionConfigKey ⟨none, some .readOnly, none, none, none⟩) }
        ⟨none, some .readOnly, none, none, none⟩).1
      = ["continue_session"] :=
  ⟨by decide, by decide,
   ((c5_config_fingerprint_reset _ _ (by decide)).1 (by decide)).1,
   ((c5_config_fingerprint_reset _ _ (by decide)).2 (by decide)).1⟩

/-- C7: when the locally known cursor exceeds the remote runtime's
reported last event id, the bridge resets its cursor to 0
(`resetKnownCursor`) and resynchronizes from the beginning of the remote
buffer — the since-0 fetch returns every retained remote event — instead
of raising an error. -/
theorem c7_cursor_reset_on_remote_reset (known : Nat) (remote : ChatStream)
    (hgt : (getStreamRuntime remote).2.1 < known)
    (hids : ∀ e ∈ remote.events, 1 ≤ e.id) :
    syncCursorStep known (getStreamRuntime remote).2.1 = (0, true) ∧
    listStreamEventsSince remote 0 = remote.events := by
  constructor
  · simp [syncCursorStep, hgt]
  · unfold listStreamEventsSince
    rw [List.filter_eq_self]
    intro e he
    simpa using hids e he

/-- C7 witness. -/
theorem c7_cursor_reset_on_remote_reset_witness :
    (getStreamRuntime { status := .running, nextId := 2,
                        events := [{ id := 1, event := "start", data := "p", ts := 0 }],
                        updatedAt := 0 }).2.1 < 5 ∧
    syncCursorStep 5
        (getStreamRuntime { status := .running, nextId := 2,
                            events := [{ id := 1, event := "start", data := "p", ts := 0 }],
                            updatedAt := 0 }).2.1 = (0, true) :=
  ⟨by decide,
   (c7_cursor_reset_on_remote_reset 5
     { status := .running, nextId := 2,
       events := [{ id := 1, event := "start", data := "p", ts := 0 }],
       updatedAt := 0 }
     (by decide) (by decide)).1⟩

/-- Helper: minted approval ids are never the empty string. -/
theorem nextApprovalId_ne_empty (nowMs approvalSeq : Nat) :
    nextApprovalId nowMs approvalSeq ≠ "" := by
  intro h
  have hl := congrArg String.length h
  rw [nextApprovalId] at hl
  simp only [String.length_append] at hl
  have h1 : ("-" : String).length = 1 := rfl
  have h0 : ("" : String).length = 0 := rfl
  omega

/-- Helper: the id the elicitation handler registers — the backend's
truthy correlation id, or else a minted one — is never the empty
string. -/
theorem chooseApprovalId_ne_empty (approvalId : String) (nowMs approvalSeq : Nat) :
    chooseApprovalId approvalId nowMs approvalSeq ≠ "" := by
  unfold chooseApprovalId
  split
  · exact nextApprovalId_ne_empty nowMs approvalSeq
  · assumption

/-- Helper: registering an approval preserves the invariant that every
pending key is a nonempty string, so the invariant holds in every
reachable client state (fresh clients start with no pendings, and only
`registerApproval` inserts keys). -/
theorem registerApproval_keys_ne_empty (c : ClientState) (approvalId : String)
    (nowMs approvalSeq : Nat)
    (hkeys : ∀ k ∈ c.pendingApprovals, k ≠ "") :
    ∀ k ∈ (registerApproval c approvalId nowMs approvalSeq).1.pendingApprovals,
      k ≠ "" := by
  intro k hk
  simp only [registerApproval] at hk
  split at hk
  · exact hkeys k hk
  · rcases List.mem_append.mp hk with h | h
    · exact hkeys k h
    · rw [List.mem_singleton.mp h]
      exact chooseApprovalId_ne_empty approvalId nowMs approvalSeq

/-- C8: for every client state satisfying the pending-key invariant (all
registered approval ids are truthy, i.e. nonempty — established by
`registerApproval_keys_ne_empty` — and unique, a `Map` invariant),
`approve(id, decision)` resolves the pending approval with exactly that
id when present; with an unknown id and exactly one pending approval it
falls back to that single entry; with no resolver found it returns
`false` without changing state; the decision maps to the elicitation
response as approved / approved-for-session ↦ accept, denied ↦ decline
and abort (the `default` switch arm) ↦ cancel; and a resolved entry is
removed from the pending map, so resolving the same id a second time —
with other approvals absent or more than one pending — returns `false`. -/
theorem c8_approve_lookup_and_mapping (c : ClientState) (id : String)
    (decision : ApprovalDecision) (hnodup : c.pendingApprovals.Nodup)
    (hkeys : ∀ k ∈ c.pendingApprovals, k ≠ "") :
    (id ∈ c.pendingApprovals →
      approve c id decision
        = (true, { c with pendingApprovals := c.pendingApprovals.erase id },
           some (id, toElicitResponse decision)) ∧
      id ∉ (approve c id decision).2.1.pendingApprovals) ∧
    (∀ k, id ∉ c.pendingApprovals → c.pendingApprovals = [k] →
      approve c id decision
        = (true, { c with pendingApprovals := [] },
           some (k, toElicitResponse decision))) ∧
    (id ∉ c.pendingApprovals → c.pendingApprovals.length ≠ 1 →
      approve c id decision = (false, c, none)) ∧
    (toElicitResponse .approved = .accept ∧
     toElicitResponse .approvedForSession = .accept ∧
     toElicitResponse .denied = .decline ∧
     toElicitResponse .abort = .cancel) ∧
    (id ∈ c.pendingApprovals →
      (approve c id decision).2.1.pendingApprovals.length ≠ 1 →
      ∀ d2, approve (approve c id decision).2.1 id d2
        = (false, (approve c id decision).2.1, none)) := by
  refine ⟨?_, ?_, ?_, ⟨rfl, rfl, rfl, rfl⟩, ?_⟩
  · intro hmem
    have hid : id ≠ "" := hkeys id hmem
    have happ : approve c id decision
        = (true, { c with pendingApprovals := c.pendingApprovals.erase id },
           some (id, toElicitResponse decision)) := by
      simp [approve, hmem, hid]
    refine ⟨happ, ?_⟩
    rw [happ]
    exact hnodup.not_mem_erase
  · intro k hnot hsingle
    have hik : id ≠ k := by
      intro h
      exact hnot (by simp [hsingle, h])
    have hk : k ≠ "" := hkeys k (by simp [hsingle])
    simp [approve, hnot, hsingle, hik, hk, List.erase_cons]
  · intro hnot hlen
    simp [approve, hnot, hlen]
  · intro hmem hlen d2
    have hid : id ≠ "" := hkeys id hmem
    have happ : approve c id decision
        = (true, { c with pendingApprovals := c.pendingApprovals.erase id },
           some (id, toElicitResponse decision)) := by
      simp [approve, hmem, hid]
    have hnot2 : id ∉ c.pendingApprovals.erase id := hnodup.not_mem_erase
    have hlen' : (c.pendingApprovals.erase id).length ≠ 1 := by
      simpa [happ] using hlen
    rw [happ]
    simp [approve, hnot2, hlen']

/-- C8 witness. -/
theorem c8_approve_lookup_and_mapping_witness :
    (["a1", "a2"] : List String).Nodup ∧
    (∀ k ∈ (["a1", "a2"] : List String), k ≠ "") ∧
    approve { freshClientState with pendingApprovals := ["a1", "a2"] } "a1" .denied
      = (true,
         { { freshClientState with pendingApprovals := ["a1", "a2"] } with
           pendingApprovals := (["a1", "a2"] : List String).erase "a1" },
         some ("a1", toElicitResponse .denied)) :=
  ⟨by decide, by decide,
   ((c8_approve_lookup_and_mapping
       { freshClientState with pendingApprovals := ["a1", "a2"] }
       "a1" .denied (by decide) (by decide)).1 (by decide)).1⟩

/-- C10 witness. -/
theorem c10_reset_stream_keeps_listeners_witness :
    ({ streamsByChatKey := fun k =>
        if k = "s:c" then some { core := freshChatStream 0, listeners := [7] } else none
      } : MemoryStoreState).streamsByChatKey (chatKey "s" "c")
        = some { core := freshChatStream 0, listeners := [7] } ∧
    7 ∈ ({ core := freshChatStream 0, listeners := [7] } : StoreStream).listeners ∧
    (MemoryStore.resetStream
        { streamsByChatKey := fun k =>
            if k = "s:c" then some { core := freshChatStream 0, listeners := [7] } else none }
        "s" "c" 5).streamsByChatKey (chatKey "s" "c")
      = some { core := { status := .running, nextId := 1, events := [], updatedAt := 5 },
               listeners := [7] } := by
  have h1 : ({ streamsByChatKey := fun k =>
      if k = "s:c" then some { core := freshChatStream 0, listeners := [7] } else none
    } : MemoryStoreState).streamsByChatKey (chatKey "s" "c")
      = some { core := freshChatStream 0, listeners := [7] } := by
    simp [chatKey]
  have h2 : 7 ∈ ({ core := freshChatStream 0, listeners := [7] } : StoreStream).listeners := by
    simp
  exact ⟨h1, h2,
    (c10_reset_stream_keeps_listeners _ "s" "c" 7 5 _ h1 h2).1⟩

end RemoteCodex
